import Mathlib

/-!
# Verification of the document-management core (src/src/document.c)

Shallow embedding of the search/replace engine, the encoding pipeline, the
indentation auto-detection, the auxiliary undo/redo ledger, the save pipeline
and the document registry of `document.c`, together with theorems settling the
frozen claims about them.

Conventions of the embedding:
* The text buffer is a `List Char`; byte positions are `Nat`.
* The Scintilla editing widget is an external collaborator of the repository;
  its buffer contract (selection, caret, plain-text search) is modelled from
  the specification of the Text Buffer Adapter.  Plain-text (non-regex) search
  is modelled; the regex searching mode is outside the embedded fragment.
* External byte-level primitives (charset conversion, BOM scanning, disk I/O)
  are parameters of the embedded functions, so the theorems about control flow
  hold for every implementation of those collaborators.
-/

namespace Geany

abbrev Text := List Char

/-! ## Plain-text search primitives (model of sci_find_text and friends) -/

/-- A match of `pat` in `text` starting at position `j`. -/
def matchesAt (text pat : Text) (j : Nat) : Bool :=
  pat.isPrefixOf (text.drop j)

/-- All candidate match positions of a forward range search: positions `j`
with `s ≤ j` whose whole match extent lies inside `[s, min e (length text)]`. -/
def matchCandidates (text pat : Text) (s e : Nat) : List Nat :=
  (List.range' s (min e text.length + 1 - s)).filter
    (fun j => decide (j + pat.length ≤ min e text.length) && matchesAt text pat j)

/-- Model of `sci_find_text` for a forward plain-text search in the range
`[s, e]`: the first position whose match fits entirely in the range. -/
def findInRange (text pat : Text) (s e : Nat) : Option Nat :=
  (matchCandidates text pat s e).head?

/-- Model of a backward plain-text search: the last match that fits in the
range `[s, e]`. -/
def findLastInRange (text pat : Text) (s e : Nat) : Option Nat :=
  (matchCandidates text pat s e).getLast?

theorem mem_matchCandidates {text pat : Text} {s e j : Nat} :
    j ∈ matchCandidates text pat s e ↔
      s ≤ j ∧ j + pat.length ≤ min e text.length ∧ matchesAt text pat j = true := by
  simp only [matchCandidates, List.mem_filter, List.mem_range'_1, Bool.and_eq_true,
    decide_eq_true_eq]
  constructor
  · rintro ⟨⟨h1, _⟩, h3, h4⟩
    exact ⟨h1, h3, h4⟩
  · rintro ⟨h1, h2, h3⟩
    exact ⟨⟨h1, by omega⟩, h2, h3⟩

theorem findInRange_eq_none_iff {text pat : Text} {s e : Nat} :
    findInRange text pat s e = none ↔
      ∀ j, s ≤ j → j + pat.length ≤ min e text.length → matchesAt text pat j = false := by
  rw [findInRange, List.head?_eq_none_iff, List.eq_nil_iff_forall_not_mem]
  constructor
  · intro h j h1 h2
    by_contra hb
    exact h j (mem_matchCandidates.mpr ⟨h1, h2, by simpa using hb⟩)
  · intro h j hj
    obtain ⟨h1, h2, h3⟩ := mem_matchCandidates.mp hj
    rw [h j h1 h2] at h3
    cases h3

theorem findInRange_some {text pat : Text} {s e j : Nat}
    (h : findInRange text pat s e = some j) :
    s ≤ j ∧ j + pat.length ≤ min e text.length ∧ matchesAt text pat j = true := by
  apply mem_matchCandidates.mp
  cases hc : matchCandidates text pat s e with
  | nil => rw [findInRange, hc] at h; cases h
  | cons a l =>
    rw [findInRange, hc] at h
    simp only [List.head?_cons, Option.some.injEq] at h
    rw [← h]
    exact List.mem_cons_self a l

theorem findLastInRange_eq_none_iff {text pat : Text} {s e : Nat} :
    findLastInRange text pat s e = none ↔
      ∀ j, s ≤ j → j + pat.length ≤ min e text.length → matchesAt text pat j = false := by
  rw [findLastInRange, List.getLast?_eq_none_iff, List.eq_nil_iff_forall_not_mem]
  constructor
  · intro h j h1 h2
    by_contra hb
    exact h j (mem_matchCandidates.mpr ⟨h1, h2, by simpa using hb⟩)
  · intro h j hj
    obtain ⟨h1, h2, h3⟩ := mem_matchCandidates.mp hj
    rw [h j h1 h2] at h3
    cases h3

theorem findLastInRange_some {text pat : Text} {s e j : Nat}
    (h : findLastInRange text pat s e = some j) :
    s ≤ j ∧ j + pat.length ≤ min e text.length ∧ matchesAt text pat j = true := by
  apply mem_matchCandidates.mp
  obtain ⟨hne, hx⟩ := List.mem_getLast?_eq_getLast (Option.mem_def.mpr h)
  rw [hx]
  exact List.getLast_mem hne

/-! ## The bulk range replace (document_replace_range, document.c:1795-1869) -/

/-- Model of `SCI_POSITIONAFTER`: one position forward, clamped at the end of
the document. -/
def positionAfter (text : Text) (p : Nat) : Nat :=
  if p < text.length then p + 1 else p

/-- The `while (TRUE)` loop of `document_replace_range`.  `pat`/`rep` are the
find and replace texts, `[s, e)` the current window, `count` the number of
replacements so far.  Returns `(count, text, e)` on exit.  The caller has
already ruled out an empty find text (`! *find_text` guard), which is the
`hp` argument; the zero-length-match branches of the source are nevertheless
kept.  Total by well-founded recursion on the window size, which is the
termination argument for the source loop. -/
def replaceLoop (pat rep : Text) (hp : pat ≠ []) (text : Text) (s e count : Nat) :
    Nat × Text × Nat :=
  match hfind : findInRange text pat s e with
  | none => (count, text, e)
  | some j =>
    let find_len := pat.length
    if find_len = 0 ∧ rep = [] then (count, text, e)
    else if hout : e < j + find_len then (count, text, e)
    else
      let movepastEOL : Nat :=
        if find_len = 0 then
          match text.drop (j + find_len) with
          | c :: _ => if c = Char.ofNat 13 ∨ c = Char.ofNat 10 then 1 else 0
          | [] => 0
        else 0
      let text' := text.take j ++ rep ++ text.drop (j + find_len)
      let count' := count + 1
      if j = e then (count', text', e)
      else
        let s1 := j + rep.length + movepastEOL
        let s2 := if find_len = 0 then positionAfter text' s1 else s1
        replaceLoop pat rep hp text' s2 (e - find_len + rep.length) count'
termination_by e - s
decreasing_by
  have hb := findInRange_some hfind
  have hlen : 0 < pat.length := List.length_pos.mpr hp
  have h0 : ¬ (List.length pat = 0) := by omega
  simp only [dif_neg h0, if_neg h0]
  omega

/-- Model of `document_replace_range` (document.c:1795).  `readonly` is the
document's read-only flag; the buffer is `text` and the result is
`(count, new text, new_range_end)` where the range end is `none` exactly when
nothing was replaced (the C code reports it through `*new_range_end = -1`). -/
def document_replace_range (readonly : Bool) (find_text rep : Text)
    (text : Text) (s e : Nat) : Nat × Text × Option Nat :=
  if h : find_text = [] ∨ readonly = true then (0, text, none)
  else
    let r := replaceLoop find_text rep (fun hc => h (Or.inl hc)) text s e 0
    (r.1, r.2.1, if 0 < r.1 then some r.2.2 else none)

theorem replaceLoop_none {pat rep : Text} {hp : pat ≠ []} {text : Text} {s e count : Nat}
    (h : findInRange text pat s e = none) :
    replaceLoop pat rep hp text s e count = (count, text, e) := by
  rw [replaceLoop.eq_def]
  split
  · rfl
  · rename_i j hfind
    rw [h] at hfind
    cases hfind

theorem replaceLoop_found {pat rep : Text} {hp : pat ≠ []} {text : Text} {s e count j : Nat}
    (h : findInRange text pat s e = some j) (h2 : j + pat.length ≤ e) :
    replaceLoop pat rep hp text s e count =
      replaceLoop pat rep hp (text.take j ++ rep ++ text.drop (j + pat.length))
        (j + rep.length) (e - pat.length + rep.length) (count + 1) := by
  have hlen : 0 < pat.length := List.length_pos.mpr hp
  have h0 : ¬ (List.length pat = 0) := by omega
  have hje : j ≠ e := by omega
  rw [replaceLoop.eq_def]
  split
  · rename_i hfind
    rw [h] at hfind
    cases hfind
  · rename_i j' hfind
    rw [h] at hfind
    injection hfind with hj
    subst hj
    rw [if_neg (by rintro ⟨hc, -⟩; exact h0 hc), dif_neg (by omega), if_neg hje]
    simp only [if_neg h0]
    norm_num

theorem replaceLoop_eval_aaa (hp : (['a'] : Text) ≠ []) :
    replaceLoop ['a'] [] hp ['a', 'a', 'a'] 0 3 0 = (3, [], 0) := by
  have h1 : findInRange ['a', 'a', 'a'] ['a'] 0 3 = some 0 := by decide
  have h2 : findInRange ['a', 'a'] ['a'] 0 2 = some 0 := by decide
  have h3 : findInRange ['a'] ['a'] 0 1 = some 0 := by decide
  have h4 : findInRange ([] : Text) ['a'] 0 0 = none := by decide
  calc replaceLoop ['a'] [] hp ['a', 'a', 'a'] 0 3 0
      = replaceLoop ['a'] [] hp ['a', 'a'] 0 2 1 := by rw [replaceLoop_found h1 (by decide)]; exact rfl
    _ = replaceLoop ['a'] [] hp ['a'] 0 1 2 := by rw [replaceLoop_found h2 (by decide)]; exact rfl
    _ = replaceLoop ['a'] [] hp ([] : Text) 0 0 3 := by rw [replaceLoop_found h3 (by decide)]; exact rfl
    _ = (3, [], 0) := replaceLoop_none h4

/-- C1: the bulk range replace terminates (the model is a total function,
proved by well-founded recursion on the window size, mirroring the loop's
guards); replacing `"a"` by `""` over `"aaa"` across `[0,3)` makes three
replacements, leaves the empty text and reports the shifted range end `0`;
and an empty find text with an empty replacement makes no replacement at all
(the zero-length-match/empty-replacement guard). -/
theorem document_replace_range_terminates_and_examples :
    document_replace_range false ['a'] [] ['a', 'a', 'a'] 0 3 = (3, [], some 0) ∧
    document_replace_range false [] [] ['a', 'a', 'a'] 0 3 = (0, ['a', 'a', 'a'], none) := by
  constructor
  · rw [document_replace_range, dif_neg (by simp)]
    rw [replaceLoop_eval_aaa]
    rfl
  · rw [document_replace_range, dif_pos (Or.inl rfl)]

/-- C10: the read-only guard and the empty-find-text guard are enforced inside
the replace engine itself: with `readonly` set, or with an empty find text,
`document_replace_range` makes zero replacements and returns the buffer text
unchanged, for every buffer, pattern and window. -/
theorem document_replace_range_readonly_guard :
    (∀ find_text rep text s e,
        document_replace_range true find_text rep text s e = (0, text, none)) ∧
    (∀ readonly rep text s e,
        document_replace_range readonly [] rep text s e = (0, text, none)) := by
  constructor
  · intro find_text rep text s e
    rw [document_replace_range, dif_pos (Or.inr rfl)]
  · intro readonly rep text s e
    rw [document_replace_range, dif_pos (Or.inl rfl)]

/-! ## The text buffer state -/

/-- Modelled from the spec: the Text Buffer Adapter state used by the search
functions — the buffer text plus the selection, given by its anchor and caret
positions.  The selection is the span between anchor and caret; it is empty
when they coincide. -/
structure Buffer where
  text : Text
  anchor : Nat
  caret : Nat
deriving DecidableEq

/-- Model of `sci_get_selection_start`. -/
def selStart (b : Buffer) : Nat := min b.anchor b.caret

/-- Model of `sci_get_selection_end`. -/
def selEnd (b : Buffer) : Nat := max b.anchor b.caret

/-- Modelled from the spec: moving the caret (sci_goto_pos and the
position-restoring sci_set_current_position) collapses the selection onto the
target position. -/
def gotoPos (b : Buffer) (p : Nat) : Buffer := { b with anchor := p, caret := p }

/-- A successful search selects the matching text. -/
def selectRange (b : Buffer) (s e : Nat) : Buffer := { b with anchor := s, caret := e }

/-- Model of `sci_search_next`: forward plain-text search from the search
anchor (the caret) to the end of the buffer. -/
def searchNext (b : Buffer) (pat : Text) : Option Nat :=
  findInRange b.text pat b.caret b.text.length

/-- Model of `sci_search_prev`: backward plain-text search; the last match
that ends at or before the caret. -/
def searchPrev (b : Buffer) (pat : Text) : Option Nat :=
  findLastInRange b.text pat 0 b.caret

/-! ## The dialog search (document_find_text, document.c:1633-1698) -/

/-- The anchoring step of `document_find_text`: when a selection exists, go to
its start (backward search) or its end (forward search), so the current
selection is never re-matched trivially. -/
def anchorForFind (b : Buffer) (backwards : Bool) : Buffer :=
  if 0 < selEnd b - selStart b then
    gotoPos b (if backwards then selStart b else selEnd b)
  else b

theorem anchorForFind_text (b : Buffer) (backwards : Bool) :
    (anchorForFind b backwards).text = b.text := by
  rw [anchorForFind]
  split <;> rfl

/-- Termination measure for the wraparound recursion of `document_find_text`:
a state from whose search anchor the remaining sub-range is the whole buffer
cannot wrap again. -/
def wrapMeasure (b : Buffer) (backwards : Bool) : Nat :=
  if backwards then (if selEnd b = b.text.length then 0 else 1)
  else (if selEnd b = 0 then 0 else 1)

/-- Model of `document_find_text` (document.c:1633): the general search used
by the find dialog.  `wrap_ok` is the outcome of the wraparound decision (the
"suppress dialogs" preference, or the user's answer to the wrap prompt).
Returns the new buffer state and the match start, `none` on failure. -/
def document_find_text (b : Buffer) (pat : Text) (backwards wrap_ok : Bool) :
    Buffer × Option Nat :=
  if pat = [] then (b, none)
  else
    match (if backwards then searchPrev (anchorForFind b backwards) pat
           else searchNext (anchorForFind b backwards) pat) with
    | some j => (selectRange (anchorForFind b backwards) j (j + pat.length), some j)
    | none =>
      if hgive : (selEnd b = 0 ∧ backwards = false) ∨
          (selEnd b = (anchorForFind b backwards).text.length ∧ backwards = true) then
        (anchorForFind b backwards, none)
      else if wrap_ok then
        match document_find_text
            (gotoPos (anchorForFind b backwards)
              (if backwards then (anchorForFind b backwards).text.length else 0))
            pat backwards wrap_ok with
        | (b3, none) => (gotoPos b3 (selStart b), none)
        | (b3, some j) => (b3, some j)
      else (anchorForFind b backwards, none)
termination_by wrapMeasure b backwards
decreasing_by
  have ht := anchorForFind_text b backwards
  cases backwards
  · simp only [Bool.false_eq_true, and_false, and_true, or_false, false_or] at hgive
    simp [wrapMeasure, gotoPos, selEnd, hgive]
    simp only [selEnd] at hgive
    split
    · next hc => exfalso; omega
    · decide
  · simp only [Bool.true_eq_false, and_false, and_true, or_false, false_or] at hgive
    rw [ht] at hgive
    simp [wrapMeasure, gotoPos, selEnd, ht, hgive]
    simp only [selEnd] at hgive
    split
    · next hc => exact absurd hc hgive
    · decide

/-- A single search attempt of `document_find_text`: the same anchoring and
search, without the wraparound branch. -/
def find_no_wrap (b : Buffer) (pat : Text) (backwards : Bool) : Buffer × Option Nat :=
  if pat = [] then (b, none)
  else
    match (if backwards then searchPrev (anchorForFind b backwards) pat
           else searchNext (anchorForFind b backwards) pat) with
    | some j => (selectRange (anchorForFind b backwards) j (j + pat.length), some j)
    | none => (anchorForFind b backwards, none)

theorem find_no_wrap_text (b : Buffer) (pat : Text) (backwards : Bool) :
    (find_no_wrap b pat backwards).1.text = b.text := by
  rw [find_no_wrap]
  split
  · rfl
  · split
    · simp [selectRange, anchorForFind_text]
    · simp [anchorForFind_text]

/-- When the sub-range to be searched is already the whole buffer, the search
gives up on a miss: no wraparound recursion happens. -/
theorem document_find_text_whole_range (b : Buffer) (pat : Text) (backwards wrap_ok : Bool)
    (h : (selEnd b = 0 ∧ backwards = false) ∨
      (selEnd b = b.text.length ∧ backwards = true)) :
    document_find_text b pat backwards wrap_ok = find_no_wrap b pat backwards := by
  rw [document_find_text.eq_def, find_no_wrap]
  split
  · rfl
  · split
    · rfl
    · rw [dif_pos (by rw [anchorForFind_text]; exact h)]

theorem gotoPos_text (b : Buffer) (p : Nat) : (gotoPos b p).text = b.text := rfl

theorem find_no_wrap_eq_some {b : Buffer} {pat : Text} {bw : Bool} {j : Nat}
    (hpat : pat ≠ [])
    (hs : (if bw then searchPrev (anchorForFind b bw) pat
           else searchNext (anchorForFind b bw) pat) = some j) :
    find_no_wrap b pat bw = (selectRange (anchorForFind b bw) j (j + pat.length), some j) := by
  rw [find_no_wrap, if_neg hpat, hs]

theorem find_no_wrap_eq_none {b : Buffer} {pat : Text} {bw : Bool}
    (hpat : pat ≠ [])
    (hs : (if bw then searchPrev (anchorForFind b bw) pat
           else searchNext (anchorForFind b bw) pat) = none) :
    find_no_wrap b pat bw = (anchorForFind b bw, none) := by
  rw [find_no_wrap, if_neg hpat, hs]

theorem wrapped_start_whole_range (b : Buffer) (pat : Text) (bw wok : Bool) :
    document_find_text (gotoPos (anchorForFind b bw) (if bw then b.text.length else 0))
        pat bw wok
      = find_no_wrap (gotoPos (anchorForFind b bw) (if bw then b.text.length else 0))
        pat bw := by
  apply document_find_text_whole_range
  cases bw
  · exact Or.inl ⟨by simp [gotoPos, selEnd], rfl⟩
  · refine Or.inr ⟨?_, rfl⟩
    simp [gotoPos, selEnd, anchorForFind_text]

/-- `document_find_text` fully unrolled: one search attempt; on a miss, give
up when the searched sub-range was the whole buffer, otherwise (when the wrap
decision allows it) exactly one further attempt from the opposite buffer
edge, restoring the caret if that also misses. -/
theorem document_find_text_unroll (b : Buffer) (pat : Text) (bw wok : Bool) :
    document_find_text b pat bw wok =
      (if pat = [] then (b, none)
       else
         match find_no_wrap b pat bw with
         | (b1, some j) => (b1, some j)
         | (b1, none) =>
           if (selEnd b = 0 ∧ bw = false) ∨ (selEnd b = b.text.length ∧ bw = true) then
             (b1, none)
           else if wok then
             match find_no_wrap (gotoPos b1 (if bw then b.text.length else 0)) pat bw with
             | (b3, none) => (gotoPos b3 (selStart b), none)
             | (b3, some j) => (b3, some j)
           else (b1, none)) := by
  rw [document_find_text.eq_def]
  by_cases hpat : pat = []
  · rw [if_pos hpat, if_pos hpat]
  · rw [if_neg hpat, if_neg hpat]
    cases hs : (if bw then searchPrev (anchorForFind b bw) pat
                else searchNext (anchorForFind b bw) pat) with
    | some j =>
      rw [find_no_wrap_eq_some hpat hs]
    | none =>
      rw [find_no_wrap_eq_none hpat hs]
      simp only [anchorForFind_text]
      split
      · rfl
      · split
        · rw [wrapped_start_whole_range]
        · rfl

theorem document_find_text_text (b : Buffer) (pat : Text) (bw wok : Bool) :
    (document_find_text b pat bw wok).1.text = b.text := by
  rw [document_find_text_unroll]
  have h1 := find_no_wrap_text b pat bw
  split
  · rfl
  · split
    · rename_i b1 j heq
      rw [heq] at h1
      exact h1
    · rename_i b1 heq
      rw [heq] at h1
      split
      · exact h1
      · split
        · have h2 := find_no_wrap_text (gotoPos b1 (if bw then b.text.length else 0)) pat bw
          rw [gotoPos_text] at h2
          split
          · rename_i b3 heq2
            rw [heq2] at h2
            simp only [gotoPos_text]
            exact h2.trans h1
          · rename_i b3 j heq2
            rw [heq2] at h2
            exact h2.trans h1
        · exact h1

/-- C3: for a non-empty search text, a `document_find_text` miss over a
sub-range that was already the entire buffer gives up and returns not-found
at once, and otherwise the search wraps at most once: the whole function is
equal to one plain search attempt followed by at most one further attempt
from the opposite buffer edge (whose own miss returns not-found without a
second wrap, restoring the caret to the original selection start). -/
theorem document_find_text_wrap_bound :
    ∀ (b : Buffer) (pat : Text) (bw wok : Bool),
      document_find_text b pat bw wok =
        (if pat = [] then (b, none)
         else
           match find_no_wrap b pat bw with
           | (b1, some j) => (b1, some j)
           | (b1, none) =>
             if (selEnd b = 0 ∧ bw = false) ∨ (selEnd b = b.text.length ∧ bw = true) then
               (b1, none)
             else if wok then
               match find_no_wrap (gotoPos b1 (if bw then b.text.length else 0)) pat bw with
               | (b3, none) => (gotoPos b3 (selStart b), none)
               | (b3, some j) => (b3, some j)
             else (b1, none)) :=
  document_find_text_unroll

/-! ## The interactive replace (document_replace_text, document.c:1703-1751) -/

/-- The anchoring step of `document_replace_text`: go to the start of the
selection (or its end when searching backwards) before re-finding, so the
search runs through the selection. -/
def replaceAnchor (b : Buffer) (backwards : Bool) : Buffer :=
  gotoPos b (if backwards then selEnd b else selStart b)

/-- The tail of `document_replace_text`: `r` is the state and result of the
re-issued find.  Replace only if the match starts exactly at the original
selection start; the replacement target is the selection made by the search,
and the replacement span is re-selected. -/
def replaceMatched (b : Buffer) (rep : Text) (r : Buffer × Option Nat) :
    Buffer × Option Nat :=
  if r.2 ≠ some (selStart b) then (r.1, none)
  else
    (selectRange
      { r.1 with text := r.1.text.take (selStart r.1) ++ rep ++ r.1.text.drop (selEnd r.1) }
      (selStart b) (selStart b + rep.length), some (selStart b))

/-- Model of `document_replace_text` (document.c:1703).  With no selection it
only primes the next find and reports that no replacement was made. -/
def document_replace_text (b : Buffer) (find_text rep : Text) (backwards wrap_ok : Bool) :
    Buffer × Option Nat :=
  if find_text = [] then (b, none)
  else if selEnd b = selStart b then
    ((document_find_text b find_text backwards wrap_ok).1, none)
  else
    replaceMatched b rep
      (document_find_text (replaceAnchor b backwards) find_text backwards wrap_ok)

/-- C4 (amended): the interactive replace replaces only when the re-issued
find matches exactly at the start of the existing selection — the source
compares `search_pos` against `selection_start` alone (document.c:1732), not
the whole selection extent.  A reported replacement always starts at the
original selection start and only happens when a non-empty selection existed;
whenever no replacement is reported the buffer text is unchanged; and with no
selection it merely primes the next find and reports no replacement. -/
theorem document_replace_text_only_selection :
    ∀ (b : Buffer) (find_text rep : Text) (backwards wrap_ok : Bool),
      (selStart b = selEnd b →
          (document_replace_text b find_text rep backwards wrap_ok).2 = none ∧
          (document_replace_text b find_text rep backwards wrap_ok).1.text = b.text) ∧
      (∀ j, (document_replace_text b find_text rep backwards wrap_ok).2 = some j →
          j = selStart b ∧ selStart b ≠ selEnd b) ∧
      ((document_replace_text b find_text rep backwards wrap_ok).2 = none →
          (document_replace_text b find_text rep backwards wrap_ok).1.text = b.text) := by
  intro b find_text rep backwards wrap_ok
  rw [document_replace_text]
  split
  · exact ⟨fun _ => ⟨rfl, rfl⟩, fun j hj => Option.noConfusion hj, fun _ => rfl⟩
  · split
    · refine ⟨fun _ => ⟨rfl, document_find_text_text ..⟩,
        fun j hj => Option.noConfusion hj,
        fun _ => document_find_text_text ..⟩
    · rename_i hne
      rw [replaceMatched]
      split
      · refine ⟨fun hsel => absurd hsel.symm hne,
          fun j hj => Option.noConfusion hj, fun _ => ?_⟩
        rw [document_find_text_text, replaceAnchor, gotoPos_text]
      · rename_i hmatch
        rw [not_not] at hmatch
        exact ⟨fun hsel => absurd hsel.symm hne,
          fun j hj => ⟨(Option.some.inj hj).symm, fun hc => hne hc.symm⟩,
          fun hn => Option.noConfusion hn⟩

/-- Counterexample to C4 as frozen: the claim requires a replacement only
when the found match is exactly the existing selection, but with the
selection spanning [0,2) over "aa" and find text "a" the re-issued find
selects only [0,1) — a match that is not the whole selection (its end 1
differs from the selection end 2) — yet `document_replace_text` performs the
replacement and reports a match at 0, turning the text into "ba". -/
theorem document_replace_text_exact_selection_counterexample :
    (document_replace_text ⟨['a', 'a'], 0, 2⟩ ['a'] ['b'] false true).2 = some 0 ∧
    (document_replace_text ⟨['a', 'a'], 0, 2⟩ ['a'] ['b'] false true).1.text = ['b', 'a'] ∧
    selStart (⟨['a', 'a'], 0, 2⟩ : Buffer) + (['a'] : Text).length ≠
      selEnd (⟨['a', 'a'], 0, 2⟩ : Buffer) := by
  have hf : document_find_text (replaceAnchor ⟨['a', 'a'], 0, 2⟩ false) ['a'] false true
      = (⟨['a', 'a'], 0, 1⟩, some 0) := by
    rw [document_find_text_unroll]
    rfl
  have hmain : document_replace_text ⟨['a', 'a'], 0, 2⟩ ['a'] ['b'] false true
      = (⟨['b', 'a'], 0, 1⟩, some 0) := by
    rw [document_replace_text, if_neg (by decide), if_neg (by decide), hf]
    rfl
  exact ⟨by rw [hmain], by rw [hmain], by decide⟩

/-! ## The search-bar find (document_search_bar_find, document.c:1571-1627) -/

/-- Model of `document_search_bar_find` (document.c:1571).  `inc` is the
incremental flag; the anchor is the selection start when incremental and the
selection end otherwise.  The first search runs from the anchor to the end
of the buffer; on a miss the wrapped search runs from position 0 with range
end anchor + pattern length (so exactly the matches starting at or before
the anchor are considered). -/
def document_search_bar_find (b : Buffer) (pat : Text) (inc : Bool) : Buffer × Bool :=
  if pat = [] then (b, true)
  else
    match findInRange b.text pat (if inc then selStart b else selEnd b) b.text.length with
    | some j => (selectRange b j (j + pat.length), true)
    | none =>
      match findInRange b.text pat 0 ((if inc then selStart b else selEnd b) + pat.length) with
      | some j => (selectRange b j (j + pat.length), true)
      | none => (gotoPos b (if inc then selStart b else selEnd b), false)

/-- C9: the search-bar find reports an empty pattern as trivially found with
the state untouched; it anchors at the selection end (selection start when
incremental) and, thanks to the wrapped second search over the prefix up to
the anchor, it succeeds exactly when the pattern occurs anywhere in the
buffer; on an overall miss the caret is restored to the anchor. -/
theorem document_search_bar_find_wraps :
    ∀ (b : Buffer) (pat : Text) (inc : Bool),
      (pat = [] → document_search_bar_find b pat inc = (b, true)) ∧
      ((document_search_bar_find b pat inc).2 = true ↔
        pat = [] ∨ ∃ j, j + pat.length ≤ b.text.length ∧ matchesAt b.text pat j = true) ∧
      ((document_search_bar_find b pat inc).2 = false →
        (document_search_bar_find b pat inc).1 =
          gotoPos b (if inc then selStart b else selEnd b)) := by
  intro b pat inc
  rw [document_search_bar_find]
  split
  · rename_i hpat
    exact ⟨fun _ => rfl, by simp [hpat], fun hc => Bool.noConfusion hc⟩
  · rename_i hpat
    refine ⟨fun hc => absurd hc hpat, ?_, ?_⟩
    · split
      · rename_i j hfound
        have hb := findInRange_some hfound
        simp only [Nat.min_self] at hb
        simp only [true_iff]
        exact Or.inr ⟨j, hb.2.1, hb.2.2⟩
      · rename_i hmiss1
        split
        · rename_i j hfound
          have hb := findInRange_some hfound
          simp only [true_iff]
          refine Or.inr ⟨j, ?_, hb.2.2⟩
          omega
        · rename_i hmiss2
          simp only [Bool.false_eq_true, false_iff, not_or]
          refine ⟨hpat, ?_⟩
          rintro ⟨j, hj, hm⟩
          rcases Nat.lt_or_ge j (if inc then selStart b else selEnd b) with hlt | hge
          · have := findInRange_eq_none_iff.mp hmiss2 j (Nat.zero_le j) (by omega)
            rw [this] at hm
            cases hm
          · have := findInRange_eq_none_iff.mp hmiss1 j hge (by omega)
            rw [this] at hm
            cases hm
    · split
      · exact fun hc => Bool.noConfusion hc
      · split
        · exact fun hc => Bool.noConfusion hc
        · exact fun _ => rfl

/-! ## Encoding auto-detection (handle_encoding, document.c:743-810) -/

/-- The outcome of `encodings_scan_unicode_bom`: either the UTF-8 BOM, or the
BOM of another Unicode charset. -/
inductive BomKind
  | utf8
  | other (charset : String)
deriving DecidableEq

/-- The charset name recorded for a recognized BOM (`encodings[idx].charset`). -/
def BomKind.charsetName : BomKind → String
  | .utf8 => "UTF-8"
  | .other cs => cs

/-- Modelled from the spec: the byte-level collaborators of the encoding
pipeline, which live in encodings.c and GLib, outside this file's source.
`scanBom data` models `encodings_scan_unicode_bom(data, size)` (`none` is
`GEANY_ENCODING_NONE`); `convertFromCharset data size charset` models
`encodings_convert_to_utf8_from_charset`; `validUtf8 data len` models
`g_utf8_validate`; `detectAuto data size` models `encodings_convert_to_utf8`
returning the detected charset and the converted text. -/
structure EncodingPrims where
  scanBom : List Nat → Option BomKind
  convertFromCharset : List Nat → Nat → String → Option (List Nat)
  validUtf8 : List Nat → Nat → Bool
  detectAuto : List Nat → Nat → Option (String × List Nat)

/-- The transient load-time `FileData` record (document.c:695-704), restricted
to the fields `handle_encoding` reads and writes. -/
structure FileData where
  data : List Nat
  size : Nat
  len : Nat
  enc : Option String
  bom : Bool
deriving DecidableEq

/-- The second half of `handle_encoding`: if no BOM resolved the charset (or
the BOM conversion failed and cleared the finding), validate as plain UTF-8,
then run the heuristic charset detection; failure of the latter is the hard
error. -/
def handle_encoding_rest (P : EncodingPrims) (fd : FileData) : Option FileData :=
  if fd.enc = none then
    if P.validUtf8 fd.data fd.len then some { fd with enc := some "UTF-8" }
    else
      match P.detectAuto fd.data fd.size with
      | some (cs, conv) =>
        some { fd with enc := some cs, data := conv, len := conv.length }
      | none => none
  else some fd

/-- The BOM-scanning first half of `handle_encoding`: a recognized BOM sets
the charset and the BOM flag; a non-UTF-8 BOM triggers conversion of the data,
and a failed conversion clears both findings again. -/
def handle_encoding_bom (P : EncodingPrims) (fd : FileData) : FileData :=
  match P.scanBom fd.data with
  | some BomKind.utf8 => { fd with enc := some "UTF-8", bom := true }
  | some (BomKind.other cs) =>
    match P.convertFromCharset fd.data fd.size cs with
    | some conv =>
      { fd with enc := some cs, bom := true, data := conv, len := conv.length }
    | none => { fd with enc := none, bom := false }
  | none => fd

/-- Model of `handle_encoding` (document.c:743): detect the encoding of
`fd.data` and convert it to UTF-8, using the primitives `P`.  Returns `none`
where the C code returns FALSE (failure).  The leading guards model the
`g_return_val_if_fail` checks. -/
def handle_encoding (P : EncodingPrims) (fd : FileData) : Option FileData :=
  if fd.enc ≠ none ∨ fd.bom then none
  else if fd.size = 0 then some { fd with enc := some "UTF-8" }
  else handle_encoding_rest P (handle_encoding_bom P fd)

/-- C5: `handle_encoding` follows the specified detection order for every
implementation of the byte-level primitives: empty input yields UTF-8 with no
BOM; a UTF-8 BOM records UTF-8 and BOM=true; a non-UTF-8 BOM whose conversion
succeeds records that charset, BOM=true and the converted data; a non-UTF-8
BOM whose conversion fails has the BOM finding cleared and falls through to
plain UTF-8 validation and then heuristic charset detection, failing hard
only when that also fails. -/
theorem handle_encoding_order :
    ∀ (P : EncodingPrims) (fd : FileData), fd.enc = none → fd.bom = false →
      (fd.size = 0 → handle_encoding P fd = some { fd with enc := some "UTF-8" }) ∧
      (fd.size ≠ 0 → P.scanBom fd.data = some BomKind.utf8 →
        handle_encoding P fd = some { fd with enc := some "UTF-8", bom := true }) ∧
      (∀ cs conv, fd.size ≠ 0 → P.scanBom fd.data = some (BomKind.other cs) →
        P.convertFromCharset fd.data fd.size cs = some conv →
        handle_encoding P fd =
          some { fd with enc := some cs, bom := true, data := conv, len := conv.length }) ∧
      (∀ cs, fd.size ≠ 0 → P.scanBom fd.data = some (BomKind.other cs) →
        P.convertFromCharset fd.data fd.size cs = none →
        handle_encoding P fd =
          (if P.validUtf8 fd.data fd.len then some { fd with enc := some "UTF-8" }
           else
             match P.detectAuto fd.data fd.size with
             | some (cs2, conv) =>
               some { fd with enc := some cs2, data := conv, len := conv.length }
             | none => none)) := by
  intro P fd henc hbom
  have hguard : ¬ (fd.enc ≠ none ∨ fd.bom = true) := by
    simp [henc, hbom]
  refine ⟨fun hsz => ?_, fun hsz hscan => ?_, fun cs conv hsz hscan hconv => ?_,
    fun cs hsz hscan hconv => ?_⟩
  · rw [handle_encoding, if_neg hguard, if_pos hsz]
  · rw [handle_encoding, if_neg hguard, if_neg hsz, handle_encoding_bom, hscan,
      handle_encoding_rest]
    simp
  · rw [handle_encoding, if_neg hguard, if_neg hsz, handle_encoding_bom, hscan]
    simp only [hconv]
    rw [handle_encoding_rest]
    simp
  · rw [handle_encoding, if_neg hguard, if_neg hsz, handle_encoding_bom, hscan]
    simp only [hconv]
    have hfd : ({ fd with enc := none, bom := false } : FileData) = fd := by
      cases fd
      simp_all
    rw [hfd, handle_encoding_rest, if_pos henc]

/-! ## Indentation auto-detection (detect_use_tabs, document.c:948-977) -/

/-- The counting loop of `detect_use_tabs`: a line counts as a tab line when
its first character is a tab, and as a space line when its first two
characters are both spaces.  The buffer is given as its list of lines
(without end-of-line characters, which are neither tab nor space, so the
per-position character reads of the source see exactly these characters). -/
def count_indent : List Text → Nat × Nat
  | [] => (0, 0)
  | l :: rest =>
    if l.head? = some '\t' then ((count_indent rest).1 + 1, (count_indent rest).2)
    else if l.take 2 = [' ', ' '] then ((count_indent rest).1, (count_indent rest).2 + 1)
    else count_indent rest

/-- Model of `detect_use_tabs` (document.c:948), with tab count
`(count_indent lines).1` and space count `(count_indent lines).2`.
`default_use_tabs` is the configured `editor_prefs.use_tabs` default. -/
def detect_use_tabs (lines : List Text) (default_use_tabs : Bool) : Bool :=
  if (count_indent lines).2 = 0 ∧ (count_indent lines).1 = 0 then default_use_tabs
  else if default_use_tabs then
    !(decide ((count_indent lines).2 > (count_indent lines).1 * 2))
  else decide ((count_indent lines).1 > (count_indent lines).2 * 2)

theorem count_indent_eq_countP (lines : List Text) :
    count_indent lines =
      (lines.countP (fun l => decide (l.head? = some '\t')),
       lines.countP (fun l => decide (l.take 2 = [' ', ' ']))) := by
  induction lines with
  | nil => rfl
  | cons l rest ih =>
    by_cases h1 : l.head? = some '\t'
    · have h2 : ¬ (l.take 2 = [' ', ' ']) := by
        intro hc
        rcases l with _ | ⟨c, t⟩
        · exact absurd hc (by simp)
        · simp only [List.head?_cons, Option.some.injEq] at h1
          have hc2 : c = ' ' := by
            have := congrArg List.head? hc
            simpa using this
          rw [hc2] at h1
          exact absurd h1 (by decide)
      simp [count_indent, ih, List.countP_cons, h1, h2]
    · by_cases h2 : l.take 2 = [' ', ' ']
      · simp [count_indent, ih, List.countP_cons, h1, h2]
      · simp [count_indent, ih, List.countP_cons, h1, h2]

/-- C7: `detect_use_tabs` counts lines whose first character is a tab against
lines starting with at least two spaces; with both counts zero it returns the
configured default, and otherwise it applies the exact 2:1 hysteresis: with
default tabs it returns spaces only when spaces > 2*tabs, and with default
spaces it returns tabs only when tabs > 2*spaces. -/
theorem detect_use_tabs_hysteresis :
    ∀ lines : List Text,
      ((lines.countP (fun l => decide (l.head? = some '\t')) = 0 ∧
        lines.countP (fun l => decide (l.take 2 = [' ', ' '])) = 0) →
          ∀ d, detect_use_tabs lines d = d) ∧
      (¬ (lines.countP (fun l => decide (l.head? = some '\t')) = 0 ∧
          lines.countP (fun l => decide (l.take 2 = [' ', ' '])) = 0) →
        ((detect_use_tabs lines true = false ↔
            2 * lines.countP (fun l => decide (l.head? = some '\t')) <
              lines.countP (fun l => decide (l.take 2 = [' ', ' ']))) ∧
         (detect_use_tabs lines false = true ↔
            2 * lines.countP (fun l => decide (l.take 2 = [' ', ' '])) <
              lines.countP (fun l => decide (l.head? = some '\t'))))) := by
  intro lines
  have hci := count_indent_eq_countP lines
  constructor
  · intro hz d
    rw [detect_use_tabs, hci]
    split
    · rfl
    · rename_i h
      exact absurd ⟨hz.2, hz.1⟩ h
  · intro hnz
    rw [detect_use_tabs, detect_use_tabs, hci]
    constructor
    · split
      · rename_i h
        exact absurd ⟨h.2, h.1⟩ hnz
      · simp only [if_pos rfl]
        simp
        omega
    · split
      · rename_i h
        exact absurd ⟨h.2, h.1⟩ hnz
      · simp only [Bool.false_eq_true, if_neg (by decide : ¬ (false = true))]
        simp
        omega

/-! ## The auxiliary undo/redo ledger (document.c:2196-2445) -/

/-- An `undo_action` of the ledger (document.c:82-88): `scintilla` defers to
the buffer's native undo, `bom` stores the old BOM flag, `encoding` stores the
old charset name. -/
inductive UndoActionType
  | scintilla
  | bom (old : Bool)
  | encoding (old : String)
deriving DecidableEq

/-- The native undo/redo interface of the editing widget, an external
collaborator: the functions the ledger calls through `sci_is_modified`,
`sci_undo` and `sci_redo`, over an abstract widget state `σ`. -/
structure SciOps (σ : Type) where
  isModified : σ → Bool
  undo : σ → σ
  redo : σ → σ

/-- The document fields touched by the ledger: the widget state, the current
and saved encoding/BOM, the composite changed flag, and the two LIFO action
stacks. -/
structure UDoc (σ : Type) where
  sci : σ
  encoding : String
  has_bom : Bool
  saved_encoding : String
  saved_has_bom : Bool
  changed : Bool
  undo_actions : List UndoActionType
  redo_actions : List UndoActionType

/-- Model of `update_changed_state` (document.c:2282): recompute the composite
changed flag from scratch — buffer-intrinsic modified, or BOM differing from
the saved BOM, or charset differing from the saved charset. -/
def update_changed_state {σ : Type} (ops : SciOps σ) (d : UDoc σ) : UDoc σ :=
  { d with changed :=
      (ops.isModified d.sci || decide (d.has_bom ≠ d.saved_has_bom)
        || decide (d.encoding ≠ d.saved_encoding)) }

/-- Model of `document_redo_add` (document.c:2429): push onto the redo stack
and mark the document changed. -/
def document_redo_add {σ : Type} (d : UDoc σ) (a : UndoActionType) : UDoc σ :=
  { d with redo_actions := a :: d.redo_actions, changed := true }

/-- Model of `document_undo_add` (document.c:2246): push onto the undo stack
and mark the document changed. -/
def document_undo_add {σ : Type} (d : UDoc σ) (a : UndoActionType) : UDoc σ :=
  { d with undo_actions := a :: d.undo_actions, changed := true }

/-- Model of `document_undo` (document.c:2294): pop the ledger (falling back
to the buffer's native undo when it is empty), run the popped branch, then
recompute the changed flag from scratch. -/
def document_undo {σ : Type} (ops : SciOps σ) (d : UDoc σ) : UDoc σ :=
  update_changed_state ops
    (match d.undo_actions with
     | [] => { d with sci := ops.undo d.sci }
     | a :: rest =>
       match a with
       | UndoActionType.scintilla =>
         let d2 := document_redo_add { d with undo_actions := rest }
           UndoActionType.scintilla
         { d2 with sci := ops.undo d2.sci }
       | UndoActionType.bom old =>
         let d2 := document_redo_add { d with undo_actions := rest }
           (UndoActionType.bom d.has_bom)
         { d2 with has_bom := old }
       | UndoActionType.encoding old =>
         let d2 := document_redo_add { d with undo_actions := rest }
           (UndoActionType.encoding d.encoding)
         { d2 with encoding := old })

/-- Model of `document_redo` (document.c:2369): symmetric to `document_undo`,
popping the redo stack and pushing mirrored entries onto the undo stack. -/
def document_redo {σ : Type} (ops : SciOps σ) (d : UDoc σ) : UDoc σ :=
  update_changed_state ops
    (match d.redo_actions with
     | [] => { d with sci := ops.redo d.sci }
     | a :: rest =>
       match a with
       | UndoActionType.scintilla =>
         let d2 := document_undo_add { d with redo_actions := rest }
           UndoActionType.scintilla
         { d2 with sci := ops.redo d2.sci }
       | UndoActionType.bom old =>
         let d2 := document_undo_add { d with redo_actions := rest }
           (UndoActionType.bom d.has_bom)
         { d2 with has_bom := old }
       | UndoActionType.encoding old =>
         let d2 := document_undo_add { d with redo_actions := rest }
           (UndoActionType.encoding d.encoding)
         { d2 with encoding := old })

/-- C8: after every `document_undo` and every `document_redo` — whichever
ledger branch ran (buffer edit, BOM toggle, encoding change) and also when the
ledger was empty and the native buffer undo/redo was used — the changed flag
equals the from-scratch recomputation: buffer-intrinsic modified OR current
BOM differs from the saved BOM OR current charset differs from the saved
charset (the saved snapshot itself being untouched by undo/redo). -/
theorem document_undo_redo_changed_state :
    ∀ (σ : Type) (ops : SciOps σ) (d : UDoc σ),
      ((document_undo ops d).changed =
        (ops.isModified (document_undo ops d).sci
          || decide ((document_undo ops d).has_bom ≠ (document_undo ops d).saved_has_bom)
          || decide ((document_undo ops d).encoding ≠ (document_undo ops d).saved_encoding))) ∧
      ((document_undo ops d).saved_encoding = d.saved_encoding ∧
        (document_undo ops d).saved_has_bom = d.saved_has_bom) ∧
      ((document_redo ops d).changed =
        (ops.isModified (document_redo ops d).sci
          || decide ((document_redo ops d).has_bom ≠ (document_redo ops d).saved_has_bom)
          || decide ((document_redo ops d).encoding ≠ (document_redo ops d).saved_encoding))) ∧
      ((document_redo ops d).saved_encoding = d.saved_encoding ∧
        (document_redo ops d).saved_has_bom = d.saved_has_bom) := by
  intro σ ops d
  refine ⟨?_, ⟨?_, ?_⟩, ?_, ⟨?_, ?_⟩⟩ <;>
    · rcases d with ⟨sci, enc, hb, senc, shb, ch, _ | ⟨_ | ⟨ob⟩ | ⟨oe⟩, urest⟩, _ | ⟨a2, rrest⟩⟩ <;>
        first
          | rfl
          | (rcases a2 with _ | ob2 | oe2 <;> rfl)

/-! ## The save pipeline (document_save_file, document.c:1447-1565) -/

/-- The external collaborators and preferences of `document_save_file`:
the pre-save normalization preferences and their buffer transformations
(editor_replace_tabs, editor_strip_trailing_spaces,
editor_ensure_final_newline), the byte extraction of the buffer text, the
charset predicate and conversion (`encodings_is_unicode_charset`,
`g_convert` via save_convert_to_encoding), the disk write outcome
(`write_data_to_disk`: `some errno` on failure), the post-save stat
(`document_update_timestamp`), realpath, and the quitting flag. -/
structure SaveEnv where
  replace_tabs : Bool
  strip_trailing_spaces : Bool
  final_new_line : Bool
  is_make_filetype : Bool
  replaceTabsFn : Text → Text
  stripSpacesFn : Text → Text
  finalNewlineFn : Text → Text
  encodeBytes : Text → List Nat
  is_unicode_charset : String → Bool
  convert : List Nat → String → Option (List Nat)
  writeErr : List Nat → Option Nat
  statMtime : Option Nat
  rp : String → Option String
  quitting : Bool

/-- The document fields `document_save_file` touches. -/
structure SDoc where
  text : Text
  modified : Bool
  changed : Bool
  readonly : Bool
  file_name : Option String
  encoding : String
  has_bom : Bool
  saved_encoding : String
  saved_has_bom : Bool
  real_path : Option String
  mtime : Nat

/-- The pre-save buffer normalizations (document.c:1467-1475): tab→space
replacement unless the filetype is a Makefile, trailing-space stripping,
final-newline enforcement — buffer mutations that stay even if the save
fails later. -/
def save_normalize (env : SaveEnv) (d : SDoc) : SDoc :=
  let t1 := if env.replace_tabs ∧ ¬ env.is_make_filetype then env.replaceTabsFn d.text
            else d.text
  let t2 := if env.strip_trailing_spaces then env.stripSpacesFn t1 else t1
  let t3 := if env.final_new_line then env.finalNewlineFn t2 else t2
  { d with text := t3 }

/-- The UTF-8 byte image written for a document: a UTF-8 BOM is prepended
when the document has a BOM and its charset is a Unicode charset
(document.c:1478-1493). -/
def save_bytes (env : SaveEnv) (d : SDoc) : List Nat :=
  (if d.has_bom ∧ env.is_unicode_charset d.encoding then [239, 187, 191] else [])
    ++ env.encodeBytes d.text

/-- The state committed by a successful save (document.c:1523-1528): the real
path is recomputed from the filename and the saved-encoding snapshot is
refreshed. -/
def save_commit (env : SaveEnv) (d1 : SDoc) (fname : String) : SDoc :=
  { d1 with real_path := env.rp fname,
            saved_encoding := d1.encoding,
            saved_has_bom := d1.has_bom }

/-- The post-save bookkeeping skipped while quitting (document.c:1530-1559):
the buffer save point clears the intrinsic modified flag and the on-disk
mtime is re-stat'd. -/
def save_post (env : SaveEnv) (d2 : SDoc) : SDoc :=
  if ¬ env.quitting then
    { d2 with modified := false,
              mtime := match env.statMtime with
                       | some m => m
                       | none => d2.mtime }
  else d2

/-- Model of `document_save_file` (document.c:1447).  Returns the new document
state and the success flag.  Failure paths: not-forced on an
unchanged-or-readonly document, missing filename, conversion failure
(save_convert_to_encoding), disk-write failure. -/
def document_save_file (env : SaveEnv) (d : SDoc) (force : Bool) : SDoc × Bool :=
  if ¬ force ∧ (¬ d.changed ∨ d.readonly) then (d, false)
  else
    match d.file_name with
    | none => (d, false)
    | some fname =>
      match
        (if (save_normalize env d).encoding ≠ "UTF-8" ∧
            (save_normalize env d).encoding ≠ "None" then
          env.convert (save_bytes env (save_normalize env d)) (save_normalize env d).encoding
        else some (save_bytes env (save_normalize env d))) with
      | none => (save_normalize env d, false)
      | some out =>
        match env.writeErr out with
        | some _ => (save_normalize env d, false)
        | none => (save_post env (save_commit env (save_normalize env d) fname), true)

/-- C6: whenever `document_save_file` fails — including failure of the
encoding conversion and failure of the disk write — it returns false and
commits nothing to the document state: the real path, the saved-encoding
snapshot (charset and BOM), the modification time and the changed flag are
all exactly as before the call, so the document remains dirty. -/
theorem document_save_file_failure_frame :
    ∀ (env : SaveEnv) (d : SDoc) (force : Bool),
      (document_save_file env d force).2 = false →
        (document_save_file env d force).1.real_path = d.real_path ∧
        (document_save_file env d force).1.saved_encoding = d.saved_encoding ∧
        (document_save_file env d force).1.saved_has_bom = d.saved_has_bom ∧
        (document_save_file env d force).1.mtime = d.mtime ∧
        (document_save_file env d force).1.changed = d.changed := by
  intro env d force hfail
  rw [document_save_file] at hfail ⊢
  split at hfail
  · rename_i h
    rw [if_pos h]
    exact ⟨rfl, rfl, rfl, rfl, rfl⟩
  · rename_i h
    rw [if_neg h]
    split at hfail
    · exact ⟨rfl, rfl, rfl, rfl, rfl⟩
    · split at hfail
      · exact ⟨rfl, rfl, rfl, rfl, rfl⟩
      · split at hfail
        · exact ⟨rfl, rfl, rfl, rfl, rfl⟩
        · simp at hfail

/-! ## The document registry (document.c:119-190, 456-512, 1049-1062) -/

/-- The registry view of a document slot: the validity flag, the display
filename and the canonicalized real path. -/
structure RegDoc where
  is_valid : Bool
  file_name : Option String
  real_path : Option String
deriving DecidableEq

/-- Model of `document_find_by_real_path` (document.c:119): `none` input
(file not on disk) finds nothing; otherwise the first valid document whose
real path equals the given one. -/
def document_find_by_real_path (docs : List RegDoc) (realname : Option String) :
    Option RegDoc :=
  match realname with
  | none => none
  | some r => docs.find? (fun doc => doc.is_valid && doc.real_path == some r)

/-- Model of `document_find_by_filename` (document.c:163): first match on the
display filename (documents with a name but no disk presence), then match on
the canonicalized real path computed by `rp` (get_real_path_from_utf8). -/
def document_find_by_filename (rp : String → Option String) (docs : List RegDoc)
    (utf8_filename : String) : Option RegDoc :=
  match docs.find? (fun doc => doc.is_valid && doc.file_name == some utf8_filename) with
  | some doc => some doc
  | none => document_find_by_real_path docs (rp utf8_filename)

/-- The slot allocation of `document_create` (document.c:472-482 with
document_get_new_idx): reuse the first free slot, else append. -/
def allocate_slot (docs : List RegDoc) (newDoc : RegDoc) : List RegDoc :=
  match docs with
  | [] => [newDoc]
  | d :: rest => if !d.is_valid then newDoc :: rest else d :: allocate_slot rest newDoc

/-- The registry effect of `document_open_file_full` (document.c:1012-1161)
for a fresh open: if a document with this filename (or its real path) is
already open, return it and leave the registry unchanged; otherwise, when the
file loads (`loadOk` models load_text_file success), register one new valid
document whose real path is the canonicalized filename; a failed load
registers nothing. -/
def document_open_file_reg (rp : String → Option String) (docs : List RegDoc)
    (filename : String) (loadOk : Bool) : List RegDoc × Option RegDoc :=
  match document_find_by_filename rp docs filename with
  | some doc => (docs, some doc)
  | none =>
    if loadOk then
      (allocate_slot docs
        { is_valid := true, file_name := some filename, real_path := rp filename },
       some { is_valid := true, file_name := some filename, real_path := rp filename })
    else (docs, none)

/-- Two document slots do not both hold the same on-disk file: not both valid
with an identical non-null real path. -/
def NoSharedRealPath (a b : RegDoc) : Prop :=
  ¬ (a.is_valid = true ∧ b.is_valid = true ∧ a.real_path ≠ none ∧
      a.real_path = b.real_path)

/-- The registry invariant: at most one valid document per canonical real
path. -/
def UniqueRealPaths (docs : List RegDoc) : Prop :=
  docs.Pairwise NoSharedRealPath

theorem mem_allocate_slot {docs : List RegDoc} {n x : RegDoc}
    (h : x ∈ allocate_slot docs n) : x = n ∨ x ∈ docs := by
  induction docs with
  | nil =>
    rw [allocate_slot] at h
    rcases List.mem_singleton.mp h with h
    exact Or.inl h
  | cons d rest ih =>
    rw [allocate_slot] at h
    split at h
    · rcases List.mem_cons.mp h with h | h
      · exact Or.inl h
      · exact Or.inr (List.mem_cons_of_mem d h)
    · rcases List.mem_cons.mp h with h | h
      · exact Or.inr (h ▸ List.mem_cons_self d rest)
      · rcases ih h with h | h
        · exact Or.inl h
        · exact Or.inr (List.mem_cons_of_mem d h)

theorem pairwise_allocate_slot {R : RegDoc → RegDoc → Prop} {docs : List RegDoc}
    {n : RegDoc} (hp : docs.Pairwise R)
    (h1 : ∀ y ∈ docs, R n y) (h2 : ∀ y ∈ docs, R y n) :
    (allocate_slot docs n).Pairwise R := by
  induction docs with
  | nil =>
    rw [allocate_slot]
    exact List.pairwise_singleton R n
  | cons d rest ih =>
    rw [allocate_slot]
    rw [List.pairwise_cons] at hp
    split
    · exact List.pairwise_cons.mpr
        ⟨fun y hy => h1 y (List.mem_cons_of_mem d hy), hp.2⟩
    · refine List.pairwise_cons.mpr ⟨fun y hy => ?_, ?_⟩
      · rcases mem_allocate_slot hy with h | h
        · exact h ▸ h2 d (List.mem_cons_self d rest)
        · exact hp.1 y h
      · exact ih hp.2 (fun y hy => h1 y (List.mem_cons_of_mem d hy))
          (fun y hy => h2 y (List.mem_cons_of_mem d hy))

/-- C2: a path already open (found by display path or by canonical real path)
makes `document_open_file_full` return the existing document with the
registry unchanged, and the open operation preserves the registry invariant
that no two valid documents share a canonical real path. -/
theorem document_open_file_no_duplicates :
    ∀ (rp : String → Option String) (docs : List RegDoc) (filename : String)
      (loadOk : Bool), UniqueRealPaths docs →
      (∀ doc, document_find_by_filename rp docs filename = some doc →
        document_open_file_reg rp docs filename loadOk = (docs, some doc)) ∧
      UniqueRealPaths (document_open_file_reg rp docs filename loadOk).1 := by
  intro rp docs filename loadOk hinv
  constructor
  · intro doc hdoc
    rw [document_open_file_reg, hdoc]
  · cases hfind : document_find_by_filename rp docs filename with
    | some doc =>
      rw [document_open_file_reg, hfind]
      exact hinv
    | none =>
      rw [document_open_file_reg, hfind]
      cases loadOk with
      | false => exact hinv
      | true =>
        simp only [if_pos rfl]
        have hnone : ∀ y ∈ docs,
            ¬ (y.is_valid = true ∧ y.real_path = rp filename ∧ rp filename ≠ none) := by
          intro y hy hcon
          rw [document_find_by_filename] at hfind
          rcases hcase : docs.find?
              (fun doc => doc.is_valid && doc.file_name == some filename) with _ | doc2
          · rw [hcase] at hfind
            rcases hrp : rp filename with _ | r
            · exact hcon.2.2 hrp
            · rw [hrp] at hfind
              have hfr : docs.find?
                  (fun doc => doc.is_valid && doc.real_path == some r) = none := hfind
              have := List.find?_eq_none.mp hfr y hy
              rw [hrp] at hcon
              simp [hcon.1, hcon.2.1] at this
          · rw [hcase] at hfind
            cases hfind
        apply pairwise_allocate_slot hinv
        · intro y hy
          rw [NoSharedRealPath]
          rintro ⟨-, hyv, hne, heq⟩
          exact hnone y hy ⟨hyv, heq.symm, fun hc => hne (hc ▸ rfl)⟩
        · intro y hy
          rw [NoSharedRealPath]
          rintro ⟨hyv, -, hne, heq⟩
          exact hnone y hy ⟨hyv, heq, fun hc => hne (heq ▸ hc ▸ rfl)⟩

/-! ## Concrete witness inputs -/

/-- A primitive set whose BOM conversion, UTF-8 validation and heuristic
detection all fail: exercises the hard-error path of `handle_encoding`. -/
def enc_prims_all_fail : EncodingPrims where
  scanBom := fun _ => some (BomKind.other "UTF-16LE")
  convertFromCharset := fun _ _ _ => none
  validUtf8 := fun _ _ => false
  detectAuto := fun _ _ => none

/-- A fresh two-byte `FileData` before detection. -/
def enc_fd0 : FileData :=
  { data := [255, 254], size := 2, len := 0, enc := none, bom := false }

/-- A save environment whose charset conversion fails. -/
def save_env_conv_fail : SaveEnv where
  replace_tabs := false
  strip_trailing_spaces := false
  final_new_line := false
  is_make_filetype := false
  replaceTabsFn := fun t => t
  stripSpacesFn := fun t => t
  finalNewlineFn := fun t => t
  encodeBytes := fun _ => []
  is_unicode_charset := fun _ => false
  convert := fun _ _ => none
  writeErr := fun _ => none
  statMtime := none
  rp := fun _ => none
  quitting := false

/-- A dirty Latin-1 document with a filename. -/
def save_doc0 : SDoc :=
  { text := ['x'], modified := true, changed := true, readonly := false,
    file_name := some "f", encoding := "ISO-8859-1", has_bom := false,
    saved_encoding := "ISO-8859-1", saved_has_bom := false,
    real_path := none, mtime := 5 }

/-- The identity canonicalization, for registry witnesses. -/
def reg_rp_id : String → Option String := fun sname => some sname

/-- An already-registered document for the file "a". -/
def reg_doc_a : RegDoc :=
  { is_valid := true, file_name := some "a", real_path := some "a" }

/-- Ten buffer lines: eight tab-indented, two indented with two spaces. -/
def indent_lines_8_2 : List Text :=
  [['\t', 'x'], ['\t', 'x'], ['\t', 'x'], ['\t', 'x'], ['\t', 'x'],
   ['\t', 'x'], ['\t', 'x'], ['\t', 'x'], [' ', ' ', 'x'], [' ', ' ', 'x']]

/-! ## Witnesses -/

/-- Witness for C2 at a concrete registry: opening "a" over an empty registry
preserves the invariant, and opening "a" again returns the registered
document with the registry unchanged. -/
theorem document_open_file_no_duplicates_witness :
    UniqueRealPaths (document_open_file_reg reg_rp_id [] "a" true).1 ∧
    document_open_file_reg reg_rp_id [reg_doc_a] "a" true =
      ([reg_doc_a], some reg_doc_a) := by
  constructor
  · exact (document_open_file_no_duplicates reg_rp_id [] "a" true List.Pairwise.nil).2
  · exact (document_open_file_no_duplicates reg_rp_id [reg_doc_a] "a" true
      (List.pairwise_singleton NoSharedRealPath reg_doc_a)).1 reg_doc_a rfl

/-- Witness for C4 at a concrete buffer with no selection: the interactive
replace reports no replacement and leaves the text unchanged. -/
theorem document_replace_text_only_selection_witness :
    (document_replace_text ⟨['x'], 0, 0⟩ ['x'] [] false true).2 = none ∧
    (document_replace_text ⟨['x'], 0, 0⟩ ['x'] [] false true).1.text =
      (⟨['x'], 0, 0⟩ : Buffer).text :=
  (document_replace_text_only_selection ⟨['x'], 0, 0⟩ ['x'] [] false true).1 rfl

/-- Witness for C5 at a concrete input: a non-UTF-8 BOM whose conversion,
UTF-8 validation and heuristic detection all fail makes `handle_encoding`
fail hard. -/
theorem handle_encoding_order_witness :
    handle_encoding enc_prims_all_fail enc_fd0 = none := by
  have h := (handle_encoding_order enc_prims_all_fail enc_fd0 rfl rfl).2.2.2
    "UTF-16LE" (by decide) rfl rfl
  rw [h]
  rfl

/-- Witness for C6 at a concrete input: a failed charset conversion returns
false and leaves real path, saved encoding snapshot, mtime and changed flag
untouched. -/
theorem document_save_file_failure_frame_witness :
    (document_save_file save_env_conv_fail save_doc0 true).1.real_path =
        save_doc0.real_path ∧
    (document_save_file save_env_conv_fail save_doc0 true).1.saved_encoding =
        save_doc0.saved_encoding ∧
    (document_save_file save_env_conv_fail save_doc0 true).1.saved_has_bom =
        save_doc0.saved_has_bom ∧
    (document_save_file save_env_conv_fail save_doc0 true).1.mtime = save_doc0.mtime ∧
    (document_save_file save_env_conv_fail save_doc0 true).1.changed =
        save_doc0.changed :=
  document_save_file_failure_frame save_env_conv_fail save_doc0 true rfl

/-- Witness for C7 at the specification's ten-line example: eight tab lines
against two space lines with default spaces detects tabs (8 > 2*2). -/
theorem detect_use_tabs_hysteresis_witness :
    detect_use_tabs indent_lines_8_2 false = true := by
  have h := (detect_use_tabs_hysteresis indent_lines_8_2).2 (by decide)
  exact h.2.mpr (by decide)

/-- Witness for C9 at a concrete buffer: with the anchor past the only match,
the wrapped second search still finds the pattern. -/
theorem document_search_bar_find_wraps_witness :
    (document_search_bar_find ⟨['a', 'b'], 1, 1⟩ ['a'] false).2 = true :=
  (document_search_bar_find_wraps ⟨['a', 'b'], 1, 1⟩ ['a'] false).2.1.mpr
    (Or.inr ⟨0, by decide, by decide⟩)

end Geany